import Mathlib

/-!
# Verification of the grobot decision engine and sensor aggregator

Shallow embedding of `src/lib.rs` (crate `grobot`).

Modelling conventions:

* `f32` is modelled by `F`: either an exact rational (`F.val q`) or `F.nan`.
  Rounding is idealised (exact rational arithmetic); infinities are not
  modelled because the only division whose divisor can be zero in the
  embedded code paths is `0.0 / 0.0`, which IEEE-754 maps to NaN.
  All IEEE comparisons on NaN are false, which `F.le` / `F.lt` reflect.
* The filter `mean - std_dev <= x && x <= mean + std_dev` of
  `Environment::temp` / `Environment::humidity`, where
  `std_dev = sqrt(sum_dev_sq / (n-1))`, is modelled without a square root:
  for `v >= 0`, `mean - sqrt v <= x && x <= mean + sqrt v` is equivalent to
  `(x - mean)^2 <= v`, and for `v < 0` or NaN inputs both comparisons are
  false.  `withinSigma` receives the variance (`devsq`) instead of the
  standard deviation and implements exactly this case split.
* Rust indexing panics (`pair[1]` on a one-element chunk of `chunks(2)`)
  are modelled by `Option`: `none` is a panic.
* `DateTime<Local>` event times all carry the load date (the config parser
  stamps "today" onto every `%H:%M` time), so sorting by the full timestamp
  and matching by time-of-day use the same key; `Event.time` is the
  time-of-day in minutes since midnight, as a `Nat`.
-/

namespace Grobot

/-- Model of `f32`: an exact rational or NaN. -/
inductive F where
  | nan : F
  | val (q : ℚ) : F
  deriving DecidableEq, Repr

namespace F

/-- IEEE addition: NaN-propagating, otherwise exact. -/
def add : F → F → F
  | val a, val b => val (a + b)
  | _, _ => nan

/-- IEEE subtraction: NaN-propagating, otherwise exact. -/
def sub : F → F → F
  | val a, val b => val (a - b)
  | _, _ => nan

/-- IEEE multiplication: NaN-propagating, otherwise exact. -/
def mul : F → F → F
  | val a, val b => val (a * b)
  | _, _ => nan

/-- IEEE division.  A zero divisor yields NaN: the embedded code only ever
divides by zero with a zero dividend (`0.0 / 0.0 = NaN`). -/
def div : F → F → F
  | val a, val b => if b = 0 then nan else val (a / b)
  | _, _ => nan

/-- IEEE `<=` as a boolean: false whenever an operand is NaN. -/
def le : F → F → Bool
  | val a, val b => decide (a ≤ b)
  | _, _ => false

/-- IEEE `<` as a boolean: false whenever an operand is NaN. -/
def lt : F → F → Bool
  | val a, val b => decide (a < b)
  | _, _ => false

/-- Embeds `f32::is_nan`. -/
def isNan : F → Bool
  | nan => true
  | val _ => false

/-- Embeds `iter().sum::<f32>()`: left fold of `add` starting from `0.0`. -/
def lsum (xs : List F) : F := xs.foldl add (val 0)

end F

/-- Embeds `dht22_pi::Reading`: one (temperature, humidity) sensor sample. -/
structure Reading where
  temperature : F
  humidity : F
  deriving DecidableEq, Repr

/-- Embeds `Environment`: ring buffer of readings, oldest first.
`capacity` is the construction-time bound. -/
structure Environment where
  capacity : ℕ
  readings : List Reading
  deriving DecidableEq, Repr

/-- Modelled from the spec: the external `ringbuffer::AllocRingBuffer` is not
part of this repository.  Per the spec, the buffer has a fixed capacity set at
construction and "oldest sample is evicted once capacity is exceeded (ring
semantics)". -/
def ringPush (cap : ℕ) (l : List Reading) (r : Reading) : List Reading :=
  if l.length < cap then l ++ [r] else l.tail ++ [r]

namespace Environment

/-- Embeds `Environment::with_readings`: empty buffer with the given capacity. -/
def with_readings (cap : ℕ) : Environment := ⟨cap, []⟩

/-- Embeds `Environment::add_reading`: validate, and push only if valid. -/
def add_reading (e : Environment) (r : Reading) : Environment :=
  if F.le (F.val 0) r.humidity && F.le r.humidity (F.val 100)
      && !r.temperature.isNan && !r.humidity.isNan then
    { e with readings := ringPush e.capacity e.readings r }
  else
    e

end Environment

/-- The one-standard-deviation filter of `temp`/`humidity`, taking the
variance `devsq = sum_dev_sq / (n-1)` in place of
`std_dev = devsq.sqrt()`:  for rational `v ≥ 0`,
`mean - sqrt v ≤ x ∧ x ≤ mean + sqrt v ↔ (x - mean)^2 ≤ v`, and when `v < 0`
(`sqrt` returns NaN) or any operand is NaN, both IEEE comparisons are false. -/
def withinSigma (mean devsq x : F) : Bool :=
  match mean, devsq, x with
  | F.val m, F.val v, F.val q => decide (0 ≤ v) && decide ((q - m) ^ 2 ≤ v)
  | _, _, _ => false

/-- Mean of a list of `f32`s: `sum / len`. -/
def meanF (xs : List F) : F := F.div (F.lsum xs) (F.val xs.length)

/-- Sum of squared deviations from the mean. -/
def sumDevSqF (xs : List F) : F :=
  F.lsum (xs.map fun x => F.mul (F.sub x (meanF xs)) (F.sub x (meanF xs)))

/-- Sample variance: `sum_dev_sq / (len as f32 - 1.0)`.  The source takes its
square root to get `std_dev`; we keep the variance (see `withinSigma`). -/
def devsqF (xs : List F) : F :=
  F.div (sumDevSqF xs) (F.sub (F.val xs.length) (F.val 1))

/-- The retained ("good") samples: those within one standard deviation. -/
def goodF (xs : List F) : List F :=
  xs.filter fun x => withinSigma (meanF xs) (devsqF xs) x

/-- Trimmed mean: mean of the retained samples. -/
def trimmedF (xs : List F) : F :=
  F.div (F.lsum (goodF xs)) (F.val (goodF xs).length)

namespace Environment

/-- Embeds `Environment::ctof`: `(c * (9.0 / 5.0)) + 32.0`. -/
def ctof (c : F) : F := F.add (F.mul c (F.val (9 / 5))) (F.val 32)

/-- Embeds `Environment::temp`: trimmed mean of the buffered temperatures,
converted to Fahrenheit.  Mirrors the source's lets; the filter runs over
readings and projects the temperature afterwards. -/
def temp (e : Environment) : F :=
  let sum := F.lsum (e.readings.map fun r => r.temperature)
  let mean := F.div sum (F.val e.readings.length)
  let sum_dev_sq := F.lsum (e.readings.map fun r =>
    F.mul (F.sub r.temperature mean) (F.sub r.temperature mean))
  let devsq := F.div sum_dev_sq (F.sub (F.val e.readings.length) (F.val 1))
  let good_samples := (e.readings.filter fun r =>
    withinSigma mean devsq r.temperature).map fun r => r.temperature
  ctof (F.div (F.lsum good_samples) (F.val good_samples.length))

/-- Embeds `Environment::humidity`: trimmed mean of the buffered humidities,
no unit conversion. -/
def humidity (e : Environment) : F :=
  let sum := F.lsum (e.readings.map fun r => r.humidity)
  let mean := F.div sum (F.val e.readings.length)
  let sum_dev_sq := F.lsum (e.readings.map fun r =>
    F.mul (F.sub r.humidity mean) (F.sub r.humidity mean))
  let devsq := F.div sum_dev_sq (F.sub (F.val e.readings.length) (F.val 1))
  let good_samples := (e.readings.filter fun r =>
    withinSigma mean devsq r.humidity).map fun r => r.humidity
  F.div (F.lsum good_samples) (F.val good_samples.length)

end Environment

/-! ## Schedules and the decision engine -/

/-- Embeds `Action`: schedule event polarity. -/
inductive Action where
  | On : Action
  | Off : Action
  deriving DecidableEq, Repr

/-- Embeds `Event`: a schedule entry.  `time` is the time-of-day in minutes since
midnight (the parser stamps the load date on every event, so the full
timestamp order used by `setup` and the time-of-day order used by the
decision functions coincide). -/
structure Event where
  time : ℕ
  action : Action
  deriving DecidableEq, Repr

/-- Embeds `FanConfig`: duty-cycle percentage (validated into [0,100]) plus schedule. -/
structure FanConfig where
  power : ℚ
  schedule : List Event
  deriving DecidableEq, Repr

/-- Embeds `LightConfig`. -/
structure LightConfig where
  schedule : List Event
  deriving DecidableEq, Repr

/-- Embeds `ThresholdConfig`. -/
structure ThresholdConfig where
  min_temp : F
  min_humidity : F
  max_temp : F
  max_humidity : F
  deriving DecidableEq, Repr

/-- Embeds `Config`. -/
structure Config where
  fan : FanConfig
  light : LightConfig
  thresholds : ThresholdConfig
  deriving DecidableEq, Repr

/-- Embeds `slice::chunks(2)`: non-overlapping chunks of size 2; a final chunk of
size 1 remains when the length is odd. -/
def chunks2 : List Event → List (List Event)
  | [] => []
  | [a] => [[a]]
  | a :: b :: rest => [a, b] :: chunks2 rest

/-- Body of the `.any(|pair| ...)` closure: reads `pair[0]` and `pair[1]`
and tests `on.time <= t && off.time > t`.  `none` models the index panic on
a chunk with fewer than two elements. -/
def chunkMatch (t : ℕ) : List Event → Option Bool
  | a :: b :: _ => some (decide (a.time ≤ t) && decide (b.time > t))
  | _ => none

/-- Embeds `Iterator::any` over the chunks: short-circuits on the first `true`,
propagates a panic (`none`) from the chunk being inspected. -/
def anyMatch (t : ℕ) : List (List Event) → Option Bool
  | [] => some false
  | c :: cs =>
    match chunkMatch t c with
    | none => none
    | some true => some true
    | some false => anyMatch t cs

/-- The three Schedule load invariants of the spec: sorted ascending by
time-of-day, even length, first action `On` (non-emptiness is implied by
the last one being about an existing head, so it is listed explicitly). -/
def ValidSchedule (s : List Event) : Prop :=
  s ≠ [] ∧ Even s.length ∧ List.Sorted (fun a b : Event => a.time ≤ b.time) s ∧
    ∀ e, s.head? = some e → e.action = Action.On

namespace Config

/-- Embeds `Config::light_on`.  `none` models a panic inside the schedule scan
(which the source evaluates first, before the threshold tests). -/
def light_on (c : Config) (t : ℕ) (environment : F × F) : Option Bool :=
  let (temp, humidity) := environment
  match anyMatch t (chunks2 c.light.schedule) with
  | none => none
  | some light_on_schedule =>
    let light_on_environment :=
      F.lt c.thresholds.max_humidity humidity || F.lt temp c.thresholds.min_temp
    let light_off_environment := F.lt c.thresholds.max_temp temp
    some ((light_on_schedule || light_on_environment) && !light_off_environment)

/-- Embeds `Config::light_off`: `!self.light_on(time, environment)`. -/
def light_off (c : Config) (t : ℕ) (environment : F × F) : Option Bool :=
  (c.light_on t environment).map Bool.not

/-- Embeds `Config::fan_on`. -/
def fan_on (c : Config) (t : ℕ) (environment : F × F) : Option Bool :=
  let (temp, humidity) := environment
  match anyMatch t (chunks2 c.fan.schedule) with
  | none => none
  | some fan_on_schedule =>
    let fan_on_environment :=
      F.lt c.thresholds.max_humidity humidity || F.lt c.thresholds.max_temp temp
    let fan_off_environment :=
      F.lt humidity c.thresholds.min_humidity || F.lt temp c.thresholds.min_temp
    some ((fan_on_schedule || fan_on_environment) && !fan_off_environment)

/-- Embeds `Config::fan_off`: `!self.fan_on(time, environment)`. -/
def fan_off (c : Config) (t : ℕ) (environment : F × F) : Option Bool :=
  (c.fan_on t environment).map Bool.not

/-- Embeds `Vec::sort_by(|a, b| a.time.cmp(&b.time))`: stable ascending sort. -/
def sortSchedule (s : List Event) : List Event :=
  List.insertionSort (fun a b : Event => a.time ≤ b.time) s

/-- Embeds `Config::setup`: sort both schedules, then require each to be non-empty
with first action `On`.  `none` models the `Err` returns (`context` on the
empty `first()` and the two `ensure!`s).  No other invariant is checked. -/
def setup (c : Config) : Option Config :=
  let light' := sortSchedule c.light.schedule
  let fan' := sortSchedule c.fan.schedule
  match light'.head? with
  | none => none
  | some first_light =>
    if first_light.action = Action.On then
      match fan'.head? with
      | none => none
      | some first_fan =>
        if first_fan.action = Action.On then
          some { c with light := ⟨light'⟩, fan := { c.fan with schedule := fan' } }
        else none
    else none

end Config

/-! ## Specification-side definitions (refinement targets)

These follow the spec's words, for comparison with the embedded code. -/

/-- Modelled from the spec: "compute the arithmetic mean ... of all buffered
readings for the field". -/
def specMean (xs : List ℚ) : ℚ := xs.sum / xs.length

/-- Modelled from the spec: "sample standard deviation (`n−1` denominator)",
kept in variance form (its square). -/
def specVar (xs : List ℚ) : ℚ :=
  (xs.map fun x => (x - specMean xs) ^ 2).sum / (xs.length - 1)

/-- Modelled from the spec: "retain only readings within one standard
deviation of the mean" — for a nonnegative variance `v` (always the case for
rational data), `mean - √v ≤ x ≤ mean + √v` is `(x - mean)^2 ≤ v`. -/
def specRetained (xs : List ℚ) : List ℚ :=
  xs.filter fun x => decide ((x - specMean xs) ^ 2 ≤ specVar xs)

/-- Modelled from the spec: "return the mean of the retained subset". -/
def specTrimmedMean (xs : List ℚ) : ℚ :=
  (specRetained xs).sum / (specRetained xs).length

/-- Modelled from the spec: "converted from Celsius to Fahrenheit
(`c * 9/5 + 32`)". -/
def specC2F (c : ℚ) : ℚ := c * (9 / 5) + 32

/-! ## Helper lemmas -/

theorem foldl_add_val (xs : List ℚ) (a : ℚ) :
    (xs.map F.val).foldl F.add (F.val a) = F.val (a + xs.sum) := by
  induction xs generalizing a with
  | nil => simp
  | cons x xs ih => simp [F.add, ih, add_assoc]

theorem lsum_map_val (xs : List ℚ) : F.lsum (xs.map F.val) = F.val xs.sum := by
  simp [F.lsum, foldl_add_val]

theorem meanF_map_val (xs : List ℚ) (h : xs ≠ []) :
    meanF (xs.map F.val) = F.val (specMean xs) := by
  have hlen : (xs.length : ℚ) ≠ 0 := by
    simpa using h
  simp [meanF, lsum_map_val, F.div, specMean, hlen]

theorem sumDevSqF_map_val (xs : List ℚ) (h : xs ≠ []) :
    sumDevSqF (xs.map F.val) = F.val ((xs.map fun x => (x - specMean xs) ^ 2).sum) := by
  have hmap : (xs.map F.val).map
      (fun x => F.mul (F.sub x (meanF (xs.map F.val))) (F.sub x (meanF (xs.map F.val))))
      = (xs.map fun x => (x - specMean xs) ^ 2).map F.val := by
    rw [List.map_map, List.map_map]
    refine List.map_congr_left fun x _ => ?_
    simp [meanF_map_val xs h, Function.comp, F.sub, F.mul, sq]
  rw [sumDevSqF, hmap, lsum_map_val]

theorem devsqF_map_val (xs : List ℚ) (h2 : 2 ≤ xs.length) :
    devsqF (xs.map F.val) = F.val (specVar xs) := by
  have h : xs ≠ [] := by
    cases xs <;> simp_all
  have hlen : (xs.length : ℚ) - 1 ≠ 0 := by
    have : (2 : ℚ) ≤ (xs.length : ℚ) := by exact_mod_cast h2
    intro hc
    nlinarith
  simp [devsqF, sumDevSqF_map_val xs h, F.sub, F.div, specVar, hlen]

theorem specVar_nonneg (xs : List ℚ) (h2 : 2 ≤ xs.length) : 0 ≤ specVar xs := by
  have hnum : 0 ≤ (xs.map fun x => (x - specMean xs) ^ 2).sum := by
    apply List.sum_nonneg
    intro q hq
    obtain ⟨x, _, rfl⟩ := List.mem_map.mp hq
    positivity
  have hden : (0 : ℚ) < (xs.length : ℚ) - 1 := by
    have : (2 : ℚ) ≤ (xs.length : ℚ) := by exact_mod_cast h2
    linarith
  exact div_nonneg hnum (le_of_lt hden)

theorem goodF_map_val (xs : List ℚ) (h2 : 2 ≤ xs.length) :
    goodF (xs.map F.val) = (specRetained xs).map F.val := by
  have h : xs ≠ [] := by cases xs <;> simp_all
  have hv := specVar_nonneg xs h2
  rw [goodF, List.filter_map, specRetained]
  congr 1
  refine List.filter_congr fun x _ => ?_
  simp [Function.comp, withinSigma, meanF_map_val xs h, devsqF_map_val xs h2, hv]

theorem sum_map_lt (l : List ℚ) (f : ℚ → ℚ) (c : ℚ) (hne : l ≠ [])
    (h : ∀ x ∈ l, c < f x) : c * l.length < (l.map f).sum := by
  induction l with
  | nil => simp at hne
  | cons x xs ih =>
    rcases List.eq_nil_or_concat xs with rfl | _
    · have := h x (by simp)
      simpa using this
    · have hxs : xs ≠ [] := by rintro rfl; simp_all
      have hx := h x (by simp)
      have hrec := ih hxs (fun y hy => h y (List.mem_cons_of_mem _ hy))
      simp only [List.map_cons, List.sum_cons, List.length_cons]
      push_cast
      linarith

theorem specRetained_ne_nil (xs : List ℚ) (h2 : 2 ≤ xs.length) :
    specRetained xs ≠ [] := by
  intro hnil
  have hall : ∀ x ∈ xs, specVar xs < (x - specMean xs) ^ 2 := by
    intro x hx
    have := List.filter_eq_nil_iff.mp hnil x hx
    simp only [decide_eq_true_eq] at this
    exact lt_of_not_le this
  have hne : xs ≠ [] := by cases xs <;> simp_all
  have hlt : specVar xs * xs.length < (xs.map fun x => (x - specMean xs) ^ 2).sum :=
    sum_map_lt xs _ _ hne hall
  have hden : (0 : ℚ) < (xs.length : ℚ) - 1 := by
    have : (2 : ℚ) ≤ (xs.length : ℚ) := by exact_mod_cast h2
    linarith
  have hsum : (xs.map fun x => (x - specMean xs) ^ 2).sum = specVar xs * ((xs.length : ℚ) - 1) := by
    rw [specVar, div_mul_cancel₀]
    exact ne_of_gt hden
  have hvpos : 0 ≤ specVar xs := specVar_nonneg xs h2
  rw [hsum] at hlt
  nlinarith

theorem trimmedF_map_val (xs : List ℚ) (h2 : 2 ≤ xs.length) :
    trimmedF (xs.map F.val) = F.val (specTrimmedMean xs) := by
  have hgood := goodF_map_val xs h2
  have hne := specRetained_ne_nil xs h2
  have hlen : ((specRetained xs).length : ℚ) ≠ 0 := by
    simpa using hne
  simp [trimmedF, hgood, lsum_map_val, F.div, specTrimmedMean, hlen]

theorem ctof_val (q : ℚ) : Environment.ctof (F.val q) = F.val (specC2F q) := by
  simp [Environment.ctof, F.mul, F.add, specC2F]

theorem temp_eq_trimmedF (e : Environment) :
    e.temp = Environment.ctof (trimmedF (e.readings.map fun r => r.temperature)) := by
  simp only [Environment.temp, trimmedF, goodF, devsqF, sumDevSqF, meanF,
    List.length_map, List.map_map, List.filter_map, Function.comp_def]

theorem humidity_eq_trimmedF (e : Environment) :
    e.humidity = trimmedF (e.readings.map fun r => r.humidity) := by
  simp only [Environment.humidity, trimmedF, goodF, devsqF, sumDevSqF, meanF,
    List.length_map, List.map_map, List.filter_map, Function.comp_def]

theorem anyMatch_isSome_of_even (t : ℕ) (s : List Event) (h : Even s.length) :
    ∃ b, anyMatch t (chunks2 s) = some b := by
  induction s using chunks2.induct with
  | case1 => exact ⟨false, rfl⟩
  | case2 a => simp at h
  | case3 a b rest ih =>
    have hrest : Even rest.length := by
      simpa [parity_simps] using h
    obtain ⟨v, hv⟩ := ih hrest
    by_cases hab : (decide (a.time ≤ t) && decide (b.time > t)) = true
    · exact ⟨true, by simp [chunks2, anyMatch, chunkMatch, hab]⟩
    · refine ⟨v, ?_⟩
      simp only [Bool.not_eq_true] at hab
      simp [chunks2, anyMatch, chunkMatch, hab, hv]

theorem anyMatch_eq_true_iff (t : ℕ) (s : List Event) :
    anyMatch t (chunks2 s) = some true ↔
      ∃ p ∈ chunks2 s, chunkMatch t p = some true := by
  induction s using chunks2.induct with
  | case1 => simp [chunks2, anyMatch]
  | case2 a => simp [chunks2, anyMatch, chunkMatch]
  | case3 a b rest ih =>
    by_cases hab : (decide (a.time ≤ t) && decide (b.time > t)) = true
    · simp [chunks2, anyMatch, chunkMatch, hab]
    · simp only [Bool.not_eq_true] at hab
      simp [chunks2, anyMatch, chunkMatch, hab, ih]

/-! ## Concrete configurations used as inputs -/

/-- Thresholds used by all the concrete examples:
`min_temp = 62`, `min_humidity = 40`, `max_temp = 82`, `max_humidity = 80`. -/
def demoThresholds : ThresholdConfig :=
  { min_temp := F.val 62, min_humidity := F.val 40
    max_temp := F.val 82, max_humidity := F.val 80 }

/-- A config whose light and fan schedules are the single event `08:00 On`
(odd length, accepted by `setup`). -/
def oddConfig : Config :=
  { fan := { power := 50, schedule := [⟨480, Action.On⟩] }
    light := { schedule := [⟨480, Action.On⟩] }
    thresholds := demoThresholds }

/-- A config whose light schedule has action sequence On, On, Off, Off
(sorted, even length, not consecutive (On, Off) pairs); the fan schedule is
well-formed. -/
def parityConfig : Config :=
  { fan := { power := 50, schedule := [⟨360, Action.On⟩, ⟨540, Action.Off⟩] }
    light := { schedule := [⟨360, Action.On⟩, ⟨420, Action.On⟩,
                            ⟨540, Action.Off⟩, ⟨600, Action.Off⟩] }
    thresholds := demoThresholds }

/-- A config with well-formed schedules: light `06:00 On`–`09:00 Off`,
fan `08:00 On`–`12:00 Off`. -/
def demoConfig : Config :=
  { fan := { power := 50, schedule := [⟨480, Action.On⟩, ⟨720, Action.Off⟩] }
    light := { schedule := [⟨360, Action.On⟩, ⟨540, Action.Off⟩] }
    thresholds := demoThresholds }

/-- A schedule whose single (On, Off) pair is degenerate: both events at
`08:00`.  It is sorted, of even length, and starts with `On`. -/
def degSchedule : List Event := [⟨480, Action.On⟩, ⟨480, Action.Off⟩]

/-- The acceptance test of `add_reading`, as a standalone predicate:
`0 <= humidity && humidity <= 100` and neither field NaN. -/
def validReading (r : Reading) : Bool :=
  F.le (F.val 0) r.humidity && F.le r.humidity (F.val 100)
    && !r.temperature.isNan && !r.humidity.isNan

theorem add_reading_of_valid (e : Environment) (r : Reading)
    (h : validReading r = true) :
    e.add_reading r = ⟨e.capacity, ringPush e.capacity e.readings r⟩ := by
  unfold validReading at h
  unfold Environment.add_reading
  rw [if_pos h]

theorem foldl_add_reading_fill (l : List Reading) (e : Environment)
    (hv : ∀ r ∈ l, validReading r = true)
    (hlen : e.readings.length + l.length ≤ e.capacity) :
    l.foldl Environment.add_reading e = ⟨e.capacity, e.readings ++ l⟩ := by
  induction l generalizing e with
  | nil =>
    cases e
    simp
  | cons r rs ih =>
    have hr : validReading r = true := hv r (List.mem_cons_self r rs)
    have hlt : e.readings.length < e.capacity := by
      simp only [List.length_cons] at hlen
      omega
    have hpush : e.add_reading r = ⟨e.capacity, e.readings ++ [r]⟩ := by
      rw [add_reading_of_valid e r hr, ringPush, if_pos hlt]
    rw [List.foldl_cons, hpush,
      ih ⟨e.capacity, e.readings ++ [r]⟩ (fun x hx => hv x (List.mem_cons_of_mem _ hx))]
    · simp
    · simp only [List.length_append, List.length_cons, List.length_nil] at hlen ⊢
      omega

theorem specMean_replicate (N : ℕ) (q : ℚ) (h : 1 ≤ N) :
    specMean (List.replicate N q) = q := by
  have hN : (N : ℚ) ≠ 0 := by
    exact_mod_cast Nat.pos_iff_ne_zero.mp h
  simp [specMean, List.sum_replicate, nsmul_eq_mul]
  field_simp

theorem specVar_replicate (N : ℕ) (q : ℚ) (h : 1 ≤ N) :
    specVar (List.replicate N q) = 0 := by
  simp [specVar, List.map_replicate, specMean_replicate N q h, List.sum_replicate]

theorem specTrimmedMean_replicate (N : ℕ) (q : ℚ) (h : 1 ≤ N) :
    specTrimmedMean (List.replicate N q) = q := by
  have hr : specRetained (List.replicate N q) = List.replicate N q := by
    apply List.filter_eq_self.mpr
    intro x hx
    have hx' : x = q := (List.eq_of_mem_replicate hx)
    simp [hx', specMean_replicate N q h, specVar_replicate N q h]
  unfold specTrimmedMean
  rw [hr]
  exact specMean_replicate N q h

/-! ## Claims -/

/-- C1: the claim says `setup` rejects a schedule of odd length, or one whose
action sequence is not consecutive (On, Off) pairs.  The code does neither:
`setup` only checks that each schedule is non-empty and (after sorting) starts
with an `On` event.  `oddConfig` (single-event schedules) and `parityConfig`
(light actions On, On, Off, Off) are both accepted, contradicting the spec's
load invariants — and `oddConfig` later panics in `light_on` (see C2). -/
theorem setup_accepts_invalid_schedules :
    Config.setup oddConfig = some oddConfig ∧
    Config.setup parityConfig = some parityConfig := by
  constructor <;> rfl

/-- C2: there is a config accepted by `setup` — single-event (hence
odd-length) schedules starting with `On` — on which `light_on` and `fan_on`
panic (`none`) at every time and environment: the only chunk of `chunks(2)`
has one element and `pair[1]` is out of bounds. -/
theorem odd_schedule_accepted_then_panics :
    Config.setup oddConfig = some oddConfig ∧
    ∀ (t : ℕ) (env : F × F),
      Config.light_on oddConfig t env = none ∧
      Config.fan_on oddConfig t env = none := by
  refine ⟨rfl, fun t env => ?_⟩
  obtain ⟨temp, humidity⟩ := env
  constructor <;> rfl

/-- C5: `light_off` and `fan_off` are the exact boolean negations of
`light_on` and `fan_on` (and propagate their panics), for every config, time
and environment. -/
theorem off_is_negation_of_on (c : Config) (t : ℕ) (env : F × F) :
    c.light_off t env = (c.light_on t env).map Bool.not ∧
    c.fan_off t env = (c.fan_on t env).map Bool.not :=
  ⟨rfl, rfl⟩

/-- C7: a reading with humidity strictly below 0, strictly above 100 or NaN,
or with NaN temperature, leaves the buffer completely unchanged: `add_reading`
is a no-op on it. -/
theorem invalid_reading_is_noop (e : Environment) (r : Reading)
    (h : r.humidity = F.nan ∨ r.temperature = F.nan ∨
      ∃ q, r.humidity = F.val q ∧ (q < 0 ∨ 100 < q)) :
    e.add_reading r = e := by
  unfold Environment.add_reading
  rcases h with h | h | ⟨q, hq, hrange⟩
  · simp [h, F.le]
  · simp [h, F.isNan]
  · rcases hrange with hlt | hgt
    · have : F.le (F.val 0) r.humidity = false := by
        simp [hq, F.le]
        linarith
      simp [this]
    · have : F.le r.humidity (F.val 100) = false := by
        simp [hq, F.le]
        linarith
      simp [this]

/-- Witness for C7 at `humidity = -1`. -/
theorem invalid_reading_is_noop_witness :
    Environment.add_reading (Environment.with_readings 8) ⟨F.val 20, F.val (-1)⟩
      = Environment.with_readings 8 :=
  invalid_reading_is_noop _ _ (Or.inr (Or.inr ⟨-1, rfl, Or.inl (by norm_num)⟩))

/-- C9: with 0 or 1 buffered readings, `temp` and `humidity` return NaN (the
`n-1 = 0` and empty-subset divisions are unguarded and propagate as float
NaN), and they do not panic: the embedding is total, mirroring the
panic-free float arithmetic of the source. -/
theorem low_sample_count_nan (e : Environment) (h : e.readings.length ≤ 1) :
    e.temp = F.nan ∧ e.humidity = F.nan := by
  obtain ⟨cap, rs⟩ := e
  match rs, h with
  | [], _ => constructor <;> rfl
  | [r], _ =>
    obtain ⟨rt, rh⟩ := r
    cases rt <;> cases rh <;> constructor <;>
      simp [Environment.temp, Environment.humidity, Environment.ctof,
        F.lsum, F.add, F.sub, F.mul, F.div, withinSigma]

/-- Witness for C9: the empty buffer. -/
theorem low_sample_count_nan_witness :
    (Environment.with_readings 8).temp = F.nan ∧
    (Environment.with_readings 8).humidity = F.nan :=
  low_sample_count_nan (Environment.with_readings 8) (by decide)

theorem validSchedule_demo_light : ValidSchedule demoConfig.light.schedule := by
  refine ⟨by decide, by decide, by decide, ?_⟩
  intro e he
  have h : e = ⟨360, Action.On⟩ := by simpa [demoConfig] using he.symm
  simp [h]

theorem validSchedule_demo_fan : ValidSchedule demoConfig.fan.schedule := by
  refine ⟨by decide, by decide, by decide, ?_⟩
  intro e he
  have h : e = ⟨480, Action.On⟩ := by simpa [demoConfig] using he.symm
  simp [h]

/-- C4: the off-override dominates.  For any config with valid schedules:
if `temp > max_temp` the light decision is `false`; if
`humidity < min_humidity` or `temp < min_temp` the fan decision is `false`;
regardless of the schedule match and of the on-override. -/
theorem override_off_dominates (c : Config) (t : ℕ) (temp humidity : F)
    (hl : ValidSchedule c.light.schedule) (hf : ValidSchedule c.fan.schedule) :
    (F.lt c.thresholds.max_temp temp = true →
      c.light_on t (temp, humidity) = some false) ∧
    ((F.lt humidity c.thresholds.min_humidity = true ∨
        F.lt temp c.thresholds.min_temp = true) →
      c.fan_on t (temp, humidity) = some false) := by
  obtain ⟨-, hle, -, -⟩ := hl
  obtain ⟨-, hfe, -, -⟩ := hf
  obtain ⟨bl, hbl⟩ := anyMatch_isSome_of_even t _ hle
  obtain ⟨bf, hbf⟩ := anyMatch_isSome_of_even t _ hfe
  constructor
  · intro hoff
    simp [Config.light_on, hbl, hoff]
  · intro hoff
    rcases hoff with hoff | hoff <;> simp [Config.fan_on, hbf, hoff]

/-- Witness for C4: `demoConfig` during the light's scheduled window with
temperature 90 > 82, and during the fan's window with humidity 30 < 40. -/
theorem override_off_dominates_witness :
    demoConfig.light_on 400 (F.val 90, F.val 50) = some false ∧
    demoConfig.fan_on 600 (F.val 70, F.val 30) = some false :=
  ⟨(override_off_dominates demoConfig 400 (F.val 90) (F.val 50)
      validSchedule_demo_light validSchedule_demo_fan).1 (by decide),
   (override_off_dominates demoConfig 600 (F.val 70) (F.val 30)
      validSchedule_demo_light validSchedule_demo_fan).2 (Or.inl (by decide))⟩

/-- C6 counterexample: the degenerate but invariant-satisfying schedule
`[08:00 On, 08:00 Off]`.  The claim says a query at the On event's
time-of-day makes its pair match; here the pair does not match at `08:00`
(`off.time > t` fails), so the claim as stated is false. -/
theorem boundary_fails_on_degenerate_pair :
    ValidSchedule degSchedule ∧
    chunkMatch 480 degSchedule = some false ∧
    anyMatch 480 (chunks2 degSchedule) = some false := by
  refine ⟨⟨by decide, by decide, by decide, ?_⟩, by decide, by decide⟩
  intro e he
  have h : e = ⟨480, Action.On⟩ := by simpa [degSchedule] using he.symm
  simp [h]

/-- C6 amended: for a schedule satisfying the load invariants and any of its
consecutive (On, Off) pairs, a query at the On event's time-of-day matches
the pair provided the pair is non-degenerate (`on.time < off.time`); a query
at the Off event's time-of-day never matches the pair (half-open interval);
and the schedule is "on" exactly when some pair matches. -/
theorem half_open_boundary_amended (s : List Event) (hs : ValidSchedule s)
    (a b : Event) (hmem : [a, b] ∈ chunks2 s) :
    (a.time < b.time → chunkMatch a.time [a, b] = some true) ∧
    chunkMatch b.time [a, b] = some false ∧
    ∀ u, (anyMatch u (chunks2 s) = some true ↔
      ∃ p ∈ chunks2 s, chunkMatch u p = some true) := by
  refine ⟨?_, ?_, fun u => anyMatch_eq_true_iff u s⟩
  · intro hab
    simp [chunkMatch, hab]
  · simp [chunkMatch]

/-- Witness for C6 (amended) on `demoConfig`'s light pair `06:00 On`,
`09:00 Off`. -/
theorem half_open_boundary_witness :
    chunkMatch 360 [⟨360, Action.On⟩, ⟨540, Action.Off⟩] = some true ∧
    chunkMatch 540 [⟨360, Action.On⟩, ⟨540, Action.Off⟩] = some false := by
  obtain ⟨h1, h2, -⟩ := half_open_boundary_amended demoConfig.light.schedule
    validSchedule_demo_light ⟨360, Action.On⟩ ⟨540, Action.Off⟩ (by decide)
  exact ⟨h1 (by decide), h2⟩

/-- C3: for a buffer of at least two accepted readings (so all values are
non-NaN rationals), `temp` is the Celsius-to-Fahrenheit conversion of the
spec's trimmed mean of the temperatures, and `humidity` is the spec's trimmed
mean of the humidities with no conversion: the conversion happens at
exposure, storage keeps raw units. -/
theorem trimmed_mean_refinement (e : Environment) (ts hs : List ℚ)
    (hts : e.readings.map (fun r => r.temperature) = ts.map F.val)
    (hhs : e.readings.map (fun r => r.humidity) = hs.map F.val)
    (h2 : 2 ≤ e.readings.length) :
    e.temp = F.val (specC2F (specTrimmedMean ts)) ∧
    e.humidity = F.val (specTrimmedMean hs) := by
  have hts_len : 2 ≤ ts.length := by
    have := congrArg List.length hts
    simp only [List.length_map] at this
    omega
  have hhs_len : 2 ≤ hs.length := by
    have := congrArg List.length hhs
    simp only [List.length_map] at this
    omega
  constructor
  · rw [temp_eq_trimmedF, hts, trimmedF_map_val ts hts_len, ctof_val]
  · rw [humidity_eq_trimmedF, hhs, trimmedF_map_val hs hhs_len]

/-- Witness for C3: two readings (20 °C, 50 %) and (22 °C, 52 %). -/
theorem trimmed_mean_refinement_witness :
    (⟨8, [⟨F.val 20, F.val 50⟩, ⟨F.val 22, F.val 52⟩]⟩ : Environment).temp
        = F.val (specC2F (specTrimmedMean [20, 22])) ∧
    (⟨8, [⟨F.val 20, F.val 50⟩, ⟨F.val 22, F.val 52⟩]⟩ : Environment).humidity
        = F.val (specTrimmedMean [50, 52]) :=
  trimmed_mean_refinement _ [20, 22] [50, 52] rfl rfl (by decide)

theorem add_reading_capacity (e : Environment) (r : Reading) :
    (e.add_reading r).capacity = e.capacity := by
  unfold Environment.add_reading
  split <;> rfl

theorem add_reading_length_le (e : Environment) (r : Reading)
    (hcap1 : 1 ≤ e.capacity) (hle : e.readings.length ≤ e.capacity) :
    (e.add_reading r).readings.length ≤ e.capacity := by
  unfold Environment.add_reading
  split
  · show (ringPush e.capacity e.readings r).length ≤ e.capacity
    rw [ringPush]
    split
    · rename_i hlt
      simp only [List.length_append, List.length_cons, List.length_nil]
      omega
    · have := List.length_tail e.readings
      simp only [List.length_append, List.length_cons, List.length_nil]
      omega
  · exact hle

theorem foldl_add_reading_length_le (l : List Reading) (e : Environment)
    (hcap1 : 1 ≤ e.capacity) (hle : e.readings.length ≤ e.capacity) :
    (l.foldl Environment.add_reading e).readings.length
        ≤ (l.foldl Environment.add_reading e).capacity ∧
    (l.foldl Environment.add_reading e).capacity = e.capacity := by
  induction l generalizing e with
  | nil => exact ⟨hle, rfl⟩
  | cons r rs ih =>
    have hcap := add_reading_capacity e r
    obtain ⟨ha, hb⟩ := ih (e.add_reading r) (hcap ▸ hcap1)
      (hcap ▸ add_reading_length_le e r hcap1 hle)
    rw [List.foldl_cons]
    exact ⟨ha, by rw [hb, hcap]⟩

/-- C8: pushing `capacity + 1` valid samples into a fresh aggregator leaves
exactly the last `capacity` of them (the first is evicted); one
`add_reading` step preserves `length ≤ capacity`; and under any sequence of
`add_reading` calls from a fresh aggregator the buffer length never exceeds
the construction capacity. -/
theorem ring_eviction (cap : ℕ) (hcap : 1 ≤ cap) (samples : List Reading)
    (hlen : samples.length = cap + 1)
    (hvalid : ∀ r ∈ samples, validReading r = true) :
    (samples.foldl Environment.add_reading (Environment.with_readings cap)).readings
      = samples.tail ∧
    (∀ (e : Environment) (r : Reading), 1 ≤ e.capacity →
      e.readings.length ≤ e.capacity →
      (e.add_reading r).readings.length ≤ e.capacity) ∧
    ∀ l : List Reading,
      (l.foldl Environment.add_reading (Environment.with_readings cap)).readings.length ≤ cap := by
  refine ⟨?_, fun e r h1 h2 => add_reading_length_le e r h1 h2, fun l => ?_⟩
  swap
  · obtain ⟨ha, hb⟩ := foldl_add_reading_length_le l (Environment.with_readings cap)
      hcap (by simp [Environment.with_readings])
    rw [hb] at ha
    exact ha
  · have hne : samples ≠ [] := by
      intro h
      rw [h] at hlen
      simp at hlen
    have hinit := List.dropLast_append_getLast hne
    have hdl_len : samples.dropLast.length = cap := by
      have := List.length_dropLast samples
      omega
    have hdl_ne : samples.dropLast ≠ [] := by
      intro h
      rw [h] at hdl_len
      simp at hdl_len
      omega
    have hfill : samples.dropLast.foldl Environment.add_reading
        (Environment.with_readings cap) = ⟨cap, samples.dropLast⟩ := by
      have h := foldl_add_reading_fill samples.dropLast (Environment.with_readings cap)
        (fun r hr => hvalid r (List.dropLast_subset samples hr))
        (by simp [Environment.with_readings, hdl_len])
      simpa [Environment.with_readings] using h
    have htail : (samples.dropLast ++ [samples.getLast hne]).tail
        = samples.dropLast.tail ++ [samples.getLast hne] := by
      cases hdl : samples.dropLast with
      | nil => exact absurd hdl hdl_ne
      | cons x xs => simp
    calc (samples.foldl Environment.add_reading (Environment.with_readings cap)).readings
        = ((samples.dropLast ++ [samples.getLast hne]).foldl Environment.add_reading
            (Environment.with_readings cap)).readings := by rw [hinit]
      _ = ((⟨cap, samples.dropLast⟩ : Environment).add_reading
            (samples.getLast hne)).readings := by
          rw [List.foldl_concat, hfill]
      _ = ringPush cap samples.dropLast (samples.getLast hne) := by
          rw [add_reading_of_valid _ _ (hvalid _ (List.getLast_mem hne))]
      _ = samples.dropLast.tail ++ [samples.getLast hne] := by
          rw [ringPush, if_neg (by omega)]
      _ = samples.tail := by rw [← htail, hinit]

/-- Witness for C8: capacity 1, two valid samples; the first is evicted. -/
theorem ring_eviction_witness :
    (([⟨F.val 1, F.val 2⟩, ⟨F.val 3, F.val 4⟩] : List Reading).foldl
        Environment.add_reading (Environment.with_readings 1)).readings
      = [⟨F.val 3, F.val 4⟩] ∧
    ((Environment.with_readings 1).add_reading ⟨F.val 3, F.val 4⟩).readings.length ≤ 1 := by
  have h := ring_eviction 1 (by decide)
    [⟨F.val 1, F.val 2⟩, ⟨F.val 3, F.val 4⟩] (by decide) (by decide)
  exact ⟨h.1, h.2.1 (Environment.with_readings 1) ⟨F.val 3, F.val 4⟩ (by decide) (by decide)⟩

/-- C10 counterexample: one valid sample (20 °C, 50 %) pushed once
(`N = 1 ≤ capacity = 4`).  The claim says `humidity()` then returns exactly
50; it returns NaN (the `n-1 = 0` division propagates). -/
theorem idempotence_fails_at_one_sample :
    ((List.replicate 1 (⟨F.val 20, F.val 50⟩ : Reading)).foldl
        Environment.add_reading (Environment.with_readings 4)).humidity = F.nan ∧
    F.nan ≠ F.val 50 := by
  constructor
  · have hfold : (List.replicate 1 (⟨F.val 20, F.val 50⟩ : Reading)).foldl
        Environment.add_reading (Environment.with_readings 4)
        = ⟨4, [⟨F.val 20, F.val 50⟩]⟩ := by
      simp [Environment.add_reading, Environment.with_readings, ringPush,
        F.le, F.isNan]
      norm_num
    rw [hfold]
    simp [Environment.humidity, F.lsum, F.add, F.sub, F.mul, F.div, withinSigma]
  · decide

/-- C10 amended: pushing the same valid sample `N` times (`1 ≤ N ≤ capacity`)
into a fresh aggregator stores it `N` times; the raw mean of each field
equals the sample's value; and for `N ≥ 2` the sample variance is 0, so
`humidity` returns exactly the sample's humidity and `temp` exactly the
Fahrenheit conversion of its temperature.  (For `N = 1` the outputs are NaN,
see the counterexample.) -/
theorem idempotence_amended (qt qh : ℚ) (N cap : ℕ) (h1 : 1 ≤ N) (hN : N ≤ cap)
    (e : Environment)
    (he : e = (List.replicate N (⟨F.val qt, F.val qh⟩ : Reading)).foldl
        Environment.add_reading (Environment.with_readings cap))
    (hq0 : 0 ≤ qh) (hq100 : qh ≤ 100) :
    e.readings = List.replicate N ⟨F.val qt, F.val qh⟩ ∧
    meanF (e.readings.map fun r => r.temperature) = F.val qt ∧
    meanF (e.readings.map fun r => r.humidity) = F.val qh ∧
    (2 ≤ N →
      devsqF (e.readings.map fun r => r.temperature) = F.val 0 ∧
      devsqF (e.readings.map fun r => r.humidity) = F.val 0 ∧
      e.humidity = F.val qh ∧
      e.temp = F.val (specC2F qt)) := by
  have hvalid : validReading ⟨F.val qt, F.val qh⟩ = true := by
    simp [validReading, F.le, F.isNan, hq0, hq100]
  have hread : e.readings = List.replicate N ⟨F.val qt, F.val qh⟩ := by
    rw [he, foldl_add_reading_fill _ _
      (fun r hr => by rw [List.eq_of_mem_replicate hr]; exact hvalid)
      (by simpa [Environment.with_readings] using hN)]
    simp [Environment.with_readings]
  have hmap_t : e.readings.map (fun r => r.temperature) = (List.replicate N qt).map F.val := by
    rw [hread]
    simp [List.map_replicate]
  have hmap_h : e.readings.map (fun r => r.humidity) = (List.replicate N qh).map F.val := by
    rw [hread]
    simp [List.map_replicate]
  have hrep_ne : ∀ q : ℚ, (List.replicate N q : List ℚ) ≠ [] := by
    intro q hq
    have := congrArg List.length hq
    simp at this
    omega
  refine ⟨hread, ?_, ?_, ?_⟩
  · rw [hmap_t, meanF_map_val _ (hrep_ne qt), specMean_replicate N qt h1]
  · rw [hmap_h, meanF_map_val _ (hrep_ne qh), specMean_replicate N qh h1]
  · intro h2
    have hlen : ∀ q : ℚ, 2 ≤ (List.replicate N q : List ℚ).length := by
      intro q
      simpa using h2
    refine ⟨?_, ?_, ?_, ?_⟩
    · rw [hmap_t, devsqF_map_val _ (hlen qt), specVar_replicate N qt h1]
    · rw [hmap_h, devsqF_map_val _ (hlen qh), specVar_replicate N qh h1]
    · rw [humidity_eq_trimmedF, hmap_h, trimmedF_map_val _ (hlen qh),
        specTrimmedMean_replicate N qh h1]
    · rw [temp_eq_trimmedF, hmap_t, trimmedF_map_val _ (hlen qt), ctof_val,
        specTrimmedMean_replicate N qt h1]

/-- Witness for C10 (amended): sample (20 °C, 50 %) pushed twice into
capacity 4. -/
theorem idempotence_amended_witness :
    ((List.replicate 2 (⟨F.val 20, F.val 50⟩ : Reading)).foldl
        Environment.add_reading (Environment.with_readings 4)).humidity = F.val 50 ∧
    ((List.replicate 2 (⟨F.val 20, F.val 50⟩ : Reading)).foldl
        Environment.add_reading (Environment.with_readings 4)).temp
      = F.val (specC2F 20) := by
  obtain ⟨-, -, -, h⟩ := idempotence_amended 20 50 2 4 (by norm_num) (by norm_num)
    _ rfl (by norm_num) (by norm_num)
  obtain ⟨-, -, hh, ht⟩ := h (by norm_num)
  exact ⟨hh, ht⟩

end Grobot
